import Mathlib

/-!
# Verification of `bevy_texture_utils`

A shallow embedding of the pixel-buffer compositing toolkit
(`texture_modification.rs`, `texture_mashup.rs`, `tile_map_texture.rs`)
together with proofs about its three operations: the pixel mapper, the
layer compositor (mashup) and the tile-map compositor.

Modelling conventions:
* byte buffers are `List Nat` (each entry a byte value); a read `data[i]`
  is modelled as `List.getD data i 0` and a write `data[i] = v` as
  `List.set data i v`;
* `usize` values are `Nat`; the cast `as usize` from a signed integer and
  the wrapping `usize` subtraction are made explicit with `% 2^64`;
  the cast `as u32` is `% 2^32`;
* the asset store `Assets<Image>` is a `List Image` and a `Handle<Image>`
  an index into it; `images.get(handle)` is `images[handle]?`;
* fallible operations return `Except String` exactly where the source
  returns `Result<_, String>` / `Result<_, &str>`;
* `Vec::sort_by` (a stable sort) is `List.mergeSort`, which is stable.
-/

namespace BevyTextureUtils

/-! ## Data model

`TextureFormat` models the subset of `bevy_render`'s texture-format enum
the repository exercises, together with `pixel_size` (bytes per pixel).
`Image` models `bevy_render::texture::Image` as used by the code: a
width, a height, a format and a flat byte buffer. -/

inductive TextureFormat where
  | rgba8UnormSrgb
  | rgba8Unorm
  | r8Unorm
deriving DecidableEq, Repr

def TextureFormat.pixel_size : TextureFormat → Nat
  | .rgba8UnormSrgb => 4
  | .rgba8Unorm => 4
  | .r8Unorm => 1

structure Image where
  width : Nat
  height : Nat
  format : TextureFormat
  data : List Nat
deriving DecidableEq, Repr

/-- `Image::new(Extent3d { width, height, .. }, _, data, format)`: the
extent fields are `u32`, so the `usize` expressions the callers pass are
truncated with `as u32`. -/
def Image.new (width height : Nat) (data : List Nat) (format : TextureFormat) : Image :=
  { width := width % 2 ^ 32, height := height % 2 ^ 32, format := format, data := data }

/-- Byte offset of the first byte of pixel `(x, y)` in a row-major
4-byte-per-pixel buffer of row width `w` pixels: `w * 4 * y + x * 4`,
the index expression used by `texture_modification.rs` and
`texture_mashup.rs`. -/
def pixel_index (w x y : Nat) : Nat := w * 4 * y + x * 4

/-- The 4 bytes of pixel `(x, y)` of a texture, read exactly as the source
reads them: `data[index]`, `data[index+1]`, `data[index+2]`, `data[index+3]`
with `index = width * 4 * y + x * 4`. -/
def texture_pixel (t : Image) (x y : Nat) : Nat × Nat × Nat × Nat :=
  (t.data.getD (pixel_index t.width x y) 0,
   t.data.getD (pixel_index t.width x y + 1) 0,
   t.data.getD (pixel_index t.width x y + 2) 0,
   t.data.getD (pixel_index t.width x y + 3) 0)

/-- `i as usize` on a signed integer: two's-complement reinterpretation,
i.e. reduction modulo `2^64`. -/
def usize_of_int (i : Int) : Nat := (i % (2 ^ 64 : Int)).toNat

/-- `n as isize` on a `usize` value: two's-complement reinterpretation
back into the signed range. -/
def int_of_usize (n : Nat) : Int :=
  if n < 2 ^ 63 then (n : Int) else (n : Int) - 2 ^ 64

/-- Wrapping `usize` subtraction `a - b` (release-profile semantics). -/
def wrap_sub (a b : Nat) : Nat := (a + (2 ^ 64 - b % 2 ^ 64)) % 2 ^ 64

/-- Wrapping `usize` addition `a + b` (release-profile semantics). -/
def wrap_add (a b : Nat) : Nat := (a + b) % 2 ^ 64

/-! ## `texture_modification.rs` -/

abbrev PixelBytes : Type := Nat × Nat × Nat × Nat

/-- `modify_texture(texture, pixel_mapper)`: visits every pixel (`x` outer,
`y` inner, as in the source), reads its 4 bytes, applies the mapper and
writes the 4 result bytes back in place. -/
def modify_texture (texture : Image) (pixel_mapper : Nat → Nat → PixelBytes → PixelBytes) :
    Image :=
  let width := texture.width
  let height := texture.height
  { texture with data :=
      (List.range width).foldl (fun data x =>
        (List.range height).foldl (fun data y =>
          let index := width * 4 * y + x * 4
          let pixel : PixelBytes :=
            (data.getD index 0, data.getD (index + 1) 0,
             data.getD (index + 2) 0, data.getD (index + 3) 0)
          let new_pixel := pixel_mapper x y pixel
          ((((data.set index new_pixel.1).set (index + 1) new_pixel.2.1).set
              (index + 2) new_pixel.2.2.1).set (index + 3) new_pixel.2.2.2) ) data) texture.data }

/-- `map_to_new_texture(texture, pixel_mapper)`: clones the texture and
runs `modify_texture` on the clone. -/
def map_to_new_texture (texture : Image)
    (pixel_mapper : Nat → Nat → PixelBytes → PixelBytes) : Image :=
  let new_image := texture
  modify_texture new_image pixel_mapper

/-- The caller's view of one `map_to_new_texture` call: the function takes
the input by shared reference, so the call returns the borrowed input
unchanged next to the freshly created output. -/
def map_to_new_texture_call (texture : Image)
    (pixel_mapper : Nat → Nat → PixelBytes → PixelBytes) : Image × Image :=
  (texture, map_to_new_texture texture pixel_mapper)

/-- `map_to_texture_pixels(texture, pixel_filter)`: builds a mapper that
keeps pixels rejected by the filter and otherwise samples the stamp
texture at `(x % width, y % height)`. -/
def map_to_texture_pixels (texture : Image) (pixel_filter : PixelBytes → Bool) :
    Nat → Nat → PixelBytes → PixelBytes :=
  fun x y pixel =>
    if !(pixel_filter pixel) then
      pixel
    else
      let width := texture.width
      let x := x % width
      let y := y % texture.height
      let index := width * 4 * y + x * 4
      (texture.data.getD index 0,
       texture.data.getD (index + 1) 0,
       texture.data.getD (index + 2) 0,
       texture.data.getD (index + 3) 0)

/-! ## `texture_mashup.rs` -/

/-- `Offset`: x/y pixel placement (both `usize`) plus the signed depth
key `z` (`isize`). -/
structure Offset where
  x : Nat
  y : Nat
  z : Int
deriving DecidableEq, Repr

/-- The comparator passed to `sort_by`: ascending by `offset.z`. -/
def le_z (a b : Offset × Image) : Bool := decide (a.1.z ≤ b.1.z)

/-- The resolution step of `mash_textures`: look every handle up in the
asset store, short-circuiting to `none` when any lookup fails
(`collect::<Option<Vec<_>>>`). -/
def resolve_offsets (images : List Image) :
    List (Offset × Nat) → Option (List (Offset × Image))
  | [] => some []
  | (offset, handle) :: rest =>
    match images[handle]? with
    | none => none
    | some texture =>
      match resolve_offsets images rest with
      | none => none
      | some rs => some ((offset, texture) :: rs)

/-- `Iterator::max`: `none` on an empty list, otherwise the greatest
element. -/
def iter_max : List Nat → Option Nat
  | [] => none
  | a :: rest => some (rest.foldl max a)

/-- The output width of `mash_textures`: the maximum of
`offset.x + texture.width` over all resolved pairs. -/
def mash_width (ots : List (Offset × Image)) : Option Nat :=
  iter_max (ots.map (fun e => e.1.x + e.2.width))

/-- The output height of `mash_textures`: the maximum of
`offset.y + texture.height` over all resolved pairs. -/
def mash_height (ots : List (Offset × Image)) : Option Nat :=
  iter_max (ots.map (fun e => e.1.y + e.2.height))

/-- Innermost copy step of the mashup loop: the four byte writes for
source pixel `(x, y)` of `texture`, placed at `(x + offset.x, y + offset.y)`
in an output buffer of pixel width `image_width`. -/
def write_pixel (image_width : Nat) (offset : Offset) (texture : Image) (y x : Nat)
    (d : List Nat) : List Nat :=
  let mash_texture_index := image_width * 4 * (y + offset.y) + (x + offset.x) * 4
  let part_texture_index := texture.width * 4 * y + x * 4
  ((((d.set mash_texture_index (texture.data.getD part_texture_index 0)).set
      (mash_texture_index + 1) (texture.data.getD (part_texture_index + 1) 0)).set
      (mash_texture_index + 2) (texture.data.getD (part_texture_index + 2) 0)).set
      (mash_texture_index + 3) (texture.data.getD (part_texture_index + 3) 0))

/-- One row of the mashup copy loop (`for x in 0..part_width`). -/
def write_row (image_width : Nat) (offset : Offset) (texture : Image) (y : Nat)
    (d : List Nat) : List Nat :=
  (List.range texture.width).foldl (fun d x => write_pixel image_width offset texture y x d) d

/-- The full per-texture copy loop of `mash_textures`
(`for y in 0..part_height { for x in 0..part_width { ... } }`). -/
def write_part (image_width : Nat) (d : List Nat) (offset : Offset) (texture : Image) :
    List Nat :=
  (List.range texture.height).foldl (fun d y => write_row image_width offset texture y d) d

/-- `mash_textures(images, offsets_handles)`: resolve all handles, stable
sort ascending by `z`, size the output to the maximum reach, zero-fill it
and copy every texture over it in sorted order. -/
def mash_textures (images : List Image) (offsets_handles : List (Offset × Nat)) :
    Except String Image :=
  match resolve_offsets images offsets_handles with
  | none => .error "Some textures could not be retrieved. Maybe they are not loaded yet"
  | some ots =>
    let offsets_textures := ots.mergeSort le_z
    match mash_width offsets_textures, mash_height offsets_textures with
    | some image_width, some image_height =>
      let image_data : List Nat := List.replicate (image_width * image_height * 4) 0
      let final := offsets_textures.foldl
        (fun d (e : Offset × Image) => write_part image_width d e.1 e.2) image_data
      .ok (Image.new image_width image_height final .rgba8UnormSrgb)
    | _, _ => .error "No texture handles were provided"

/-- Element `e` of the mashup input covers output pixel `(px, py)`: the
pixel lies inside the rectangle the texture is copied to. -/
def covers (e : Offset × Image) (px py : Nat) : Prop :=
  e.1.x ≤ px ∧ px < e.1.x + e.2.width ∧ e.1.y ≤ py ∧ py < e.1.y + e.2.height

instance (e : Offset × Image) (px py : Nat) : Decidable (covers e px py) := by
  unfold covers
  infer_instance

/-! ## `tile_map_texture.rs` -/

/-- A grid coordinate from the `pad` crate, keyed on by the tile-map
compositor. Per the specification's data model it is a pair of signed
integers. -/
structure Position where
  x : Int
  y : Int
deriving DecidableEq, Repr

/-- The fields of `TileMapTextureCreator`. -/
structure TileMapTextureCreator where
  texture_format : TextureFormat
  bytes_per_pixel : Nat
  tile_width : Nat
  tile_height : Nat
deriving Repr

/-- `TileMapTextureCreator::new`: derives `bytes_per_pixel` from the
format. -/
def TileMapTextureCreator.new (texture_format : TextureFormat)
    (tile_width tile_height : Nat) : TileMapTextureCreator :=
  { texture_format := texture_format, bytes_per_pixel := texture_format.pixel_size,
    tile_width := tile_width, tile_height := tile_height }

/-- The resolution-and-check step of `create_tile_map_texture`: resolve
every handle (error when one is not loaded) and check its format against
the configured one (error otherwise), short-circuiting at the first
failure as `collect::<Result<HashMap<_, _>, _>>` does. -/
def resolve_position_textures (images : List Image) (fmt : TextureFormat) :
    List (Position × Nat) → Except String (List (Position × Image))
  | [] => .ok []
  | (pos, handle) :: rest =>
    match images[handle]? with
    | none => .error "Not all textures are loaded yet."
    | some texture =>
      if texture.format = fmt then
        match resolve_position_textures images fmt rest with
        | .error e => .error e
        | .ok m => .ok ((pos, texture) :: m)
      else
        .error "Not all textures have the configured texture format."

/-- `HashMap` lookup on the association list produced by
`resolve_position_textures`: a later insertion with the same key
overwrites an earlier one. -/
def map_lookup (m : List (Position × Image)) (pos : Position) : Option Image :=
  m.foldl (fun acc e => if e.1 = pos then some e.2 else acc) none

/-- `get_max_x`: maximum `x` over the map's keys (`Iterator::max`), then
`as usize`; error when the map is empty. -/
def get_max_x (position_texture_map : List (Position × Image)) : Except String Nat :=
  match position_texture_map.map (fun e => e.1.x) with
  | [] => .error "No tiles were provided!"
  | v :: vs => .ok (usize_of_int (vs.foldl max v))

/-- `get_min_x`: minimum `x` over the map's keys, then `as usize`. -/
def get_min_x (position_texture_map : List (Position × Image)) : Except String Nat :=
  match position_texture_map.map (fun e => e.1.x) with
  | [] => .error "No tiles were provided!"
  | v :: vs => .ok (usize_of_int (vs.foldl min v))

/-- `get_max_y`: maximum `y` over the map's keys, then `as usize`. -/
def get_max_y (position_texture_map : List (Position × Image)) : Except String Nat :=
  match position_texture_map.map (fun e => e.1.y) with
  | [] => .error "No tiles were provided!"
  | v :: vs => .ok (usize_of_int (vs.foldl max v))

/-- `get_min_y`: minimum `y` over the map's keys, then `as usize`. -/
def get_min_y (position_texture_map : List (Position × Image)) : Except String Nat :=
  match position_texture_map.map (fun e => e.1.y) with
  | [] => .error "No tiles were provided!"
  | v :: vs => .ok (usize_of_int (vs.foldl min v))

/-- `add_data_from_tile_image_at_position`: copies one tile's bytes into
the output buffer, using exactly the source's index expressions
(including its use of `tile_height` in the source-row stride and in the
per-row advance of the output index). -/
def TileMapTextureCreator.add_data_from_tile_image_at_position
    (c : TileMapTextureCreator) (width : Nat) (data : List Nat) (pos : Position)
    (image_data : List Nat) : List Nat :=
  (List.range c.tile_height).foldl (fun d y =>
    (List.range c.tile_width).foldl (fun d x =>
      (List.range c.bytes_per_pixel).foldl (fun d i =>
        let image_index := y * c.tile_height * c.bytes_per_pixel + x * c.bytes_per_pixel + i
        let tiles_texture_index :=
          (width * c.tile_width * c.bytes_per_pixel) * (usize_of_int pos.y * c.tile_height)
            + (usize_of_int pos.x * c.tile_width * c.bytes_per_pixel)
            + (c.tile_height * c.bytes_per_pixel * width * y)
            + x * c.bytes_per_pixel
            + i
        d.set tiles_texture_index (image_data.getD image_index 0)) d) d) data

/-- The cell loop of `create_tile_map_texture`:
`for y in (min_y..=max_y).rev() { for x in min_x..=max_x { ... } }`,
looking each grid cell up in the map (skipping empty cells) and copying
the found tile at the translated position `(x - min_x, max_y - y)`. -/
def TileMapTextureCreator.fill_tiles (c : TileMapTextureCreator) (width : Nat)
    (position_texture_map : List (Position × Image)) (min_x max_x min_y max_y : Nat)
    (data : List Nat) : List Nat :=
  ((List.range' min_y (max_y + 1 - min_y)).reverse).foldl (fun d y =>
    (List.range' min_x (max_x + 1 - min_x)).foldl (fun d x =>
      let absolute_pos : Position := ⟨int_of_usize x, int_of_usize y⟩
      let relative_pos : Position := ⟨int_of_usize (x - min_x), int_of_usize (max_y - y)⟩
      match map_lookup position_texture_map absolute_pos with
      | none => d
      | some image =>
        c.add_data_from_tile_image_at_position width d relative_pos image.data) d) data

/-- `create_image_from_data`: wraps the buffer into an image of
`(max_x * tile_width) × (max_y * tile_height)` pixels (both `as u32`). -/
def TileMapTextureCreator.create_image_from_data (c : TileMapTextureCreator)
    (max_x max_y : Nat) (data : List Nat) : Image :=
  Image.new (max_x * c.tile_width) (max_y * c.tile_height) data c.texture_format

/-- `create_tile_map_texture(images, positions_and_textures)`: resolve and
format-check all tiles, compute the usize bounds of the key set, allocate
the zero-filled output, copy every present tile and wrap the result. -/
def TileMapTextureCreator.create_tile_map_texture (c : TileMapTextureCreator)
    (images : List Image) (positions_and_textures : List (Position × Nat)) :
    Except String Image :=
  match resolve_position_textures images c.texture_format positions_and_textures with
  | .error e => .error e
  | .ok position_texture_map =>
    match get_max_x position_texture_map, get_min_x position_texture_map,
          get_max_y position_texture_map, get_min_y position_texture_map with
    | .ok max_x, .ok min_x, .ok max_y, .ok min_y =>
      let width := wrap_add (wrap_sub max_x min_x) 1
      let height := wrap_add (wrap_sub max_y min_y) 1
      let data := List.replicate
        ((width * c.tile_width * c.bytes_per_pixel) * (height * c.tile_height)) 0
      let data := c.fill_tiles width position_texture_map min_x max_x min_y max_y data
      .ok (c.create_image_from_data width height data)
    | .error e, _, _, _ => .error e
    | _, .error e, _, _ => .error e
    | _, _, .error e, _ => .error e
    | _, _, _, .error e => .error e

/-- Spec-side bounding-box span of a list of (signed) coordinates:
`max - min + 1`, or `0` for an empty list. -/
def grid_span (xs : List Int) : Int :=
  match xs with
  | [] => 0
  | v :: vs => (vs.foldl max v) - (vs.foldl min v) + 1

/-! ## Concrete inputs used by witnesses and counterexamples -/

def stamp_image : Image :=
  { width := 2, height := 1, format := .rgba8UnormSrgb,
    data := [10, 11, 12, 13, 20, 21, 22, 23] }

def blue_filter : PixelBytes → Bool := fun p => p.1 = 0

def checker_image : Image :=
  { width := 1, height := 2, format := .rgba8UnormSrgb,
    data := [1, 2, 3, 4, 5, 6, 7, 8] }

/-- A 4×4 texture whose format matches a 2×2 `TileSpec` but whose
dimensions do not. -/
def mismatched_tile_image : Image :=
  { width := 4, height := 4, format := .rgba8UnormSrgb, data := List.replicate 64 7 }

/-- A 2×2 texture in a format differing from `rgba8UnormSrgb`. -/
def wrong_format_image : Image :=
  { width := 2, height := 2, format := .rgba8Unorm, data := List.replicate 16 0 }

/-- A 3×2 (non-square) tile whose bytes enumerate their own positions. -/
def rect_tile_image : Image :=
  { width := 3, height := 2, format := .rgba8UnormSrgb,
    data := [0, 1, 2, 3, 4, 5, 6, 7, 8, 9, 10, 11,
             12, 13, 14, 15, 16, 17, 18, 19, 20, 21, 22, 23] }

def single_tile_image : Image :=
  { width := 1, height := 1, format := .rgba8UnormSrgb, data := [9, 8, 7, 6] }

def witness_tile_map_image : Image :=
  { width := 1, height := 1, format := .rgba8UnormSrgb, data := [9, 8, 7, 6] }

def unit_image : Image :=
  { width := 1, height := 1, format := .rgba8UnormSrgb, data := [1, 2, 3, 4] }

def unit_offset : Offset := { x := 0, y := 0, z := 0 }

def red_image : Image :=
  { width := 1, height := 1, format := .rgba8UnormSrgb, data := [1, 1, 1, 1] }

def blue_image : Image :=
  { width := 1, height := 1, format := .rgba8UnormSrgb, data := [2, 2, 2, 2] }

def mash_single_image : Image :=
  { width := 1, height := 1, format := .rgba8UnormSrgb, data := [1, 2, 3, 4] }

def mash_witness_image : Image :=
  { width := 1, height := 1, format := .rgba8UnormSrgb, data := [2, 2, 2, 2] }

/-! ## Generic list lemmas used throughout -/

theorem getD_set_eq_ite {α : Type} (l : List α) (i j : Nat) (v d : α) :
    (l.set i v).getD j d = if i = j ∧ j < l.length then v else l.getD j d := by
  induction l generalizing i j with
  | nil => simp [List.set]
  | cons a t ih =>
    cases i with
    | zero =>
      cases j with
      | zero => simp [List.set, List.getD]
      | succ j => simp [List.set, List.getD]
    | succ i =>
      cases j with
      | zero => simp [List.set, List.getD]
      | succ j =>
        simp only [List.set, List.getD_cons_succ, List.length_cons, ih]
        have hiff : (i = j ∧ j < t.length) ↔ (i + 1 = j + 1 ∧ j + 1 < t.length + 1) := by omega
        rw [if_congr hiff rfl rfl]

theorem set_getD_self {α : Type} (l : List α) (i : Nat) (d : α) :
    l.set i (l.getD i d) = l := by
  induction l generalizing i with
  | nil => simp
  | cons a t ih =>
    cases i with
    | zero => simp [List.getD]
    | succ i => simp only [List.getD_cons_succ, List.set_cons_succ, ih]

theorem foldl_fixed {α β : Type} (f : α → β → α) (l : List β) (a : α)
    (h : ∀ x ∈ l, ∀ b, f b x = b) : l.foldl f a = a := by
  induction l generalizing a with
  | nil => rfl
  | cons x t ih =>
    rw [List.foldl_cons, h x (by simp), ih]
    intro x hx b
    exact h x (by simp [hx]) b

theorem foldl_inv {α β : Type} (P : α → Prop) (f : α → β → α) (l : List β) (a : α)
    (h0 : P a) (h : ∀ b x, P b → P (f b x)) : P (l.foldl f a) := by
  induction l generalizing a with
  | nil => exact h0
  | cons x t ih => exact ih _ (h _ _ h0)

theorem foldl_length {β : Type} (f : List Nat → β → List Nat) (l : List β) (d : List Nat)
    (h : ∀ b x, (f b x).length = b.length) : (l.foldl f d).length = d.length := by
  induction l generalizing d with
  | nil => rfl
  | cons x s ih => rw [List.foldl_cons, ih, h]

/-! ## Theorems for the pixel mapper -/

/-- C7: the mapper produced by `map_to_texture_pixels` returns the input
pixel unchanged when the filter rejects it, and otherwise returns the
stamp texture's pixel at `(x % stampWidth, y % stampHeight)`, so the stamp
tiles with wraparound. -/
theorem map_to_texture_pixels_spec (texture : Image) (pixel_filter : PixelBytes → Bool)
    (x y : Nat) (pixel : PixelBytes) :
    (pixel_filter pixel = false → map_to_texture_pixels texture pixel_filter x y pixel = pixel) ∧
    (pixel_filter pixel = true →
      map_to_texture_pixels texture pixel_filter x y pixel =
        texture_pixel texture (x % texture.width) (y % texture.height)) := by
  constructor
  · intro h
    simp [map_to_texture_pixels, h]
  · intro h
    simp [map_to_texture_pixels, h, texture_pixel, pixel_index]

/-- Witness for C7: at `(x, y) = (5, 3)` the filter accepts `(0,0,0,255)`
and the stamp pixel at `(5 % 2, 3 % 1) = (1, 0)` is returned; the filter
rejects `(9,0,0,255)` and that pixel is returned unchanged. -/
theorem map_to_texture_pixels_spec_witness :
    (blue_filter (0, 0, 0, 255) = true ∧
      map_to_texture_pixels stamp_image blue_filter 5 3 (0, 0, 0, 255) = (20, 21, 22, 23)) ∧
    (blue_filter (9, 0, 0, 255) = false ∧
      map_to_texture_pixels stamp_image blue_filter 5 3 (9, 0, 0, 255) = (9, 0, 0, 255)) := by
  refine ⟨⟨by decide, ?_⟩, ⟨by decide, ?_⟩⟩
  · have h := (map_to_texture_pixels_spec stamp_image blue_filter 5 3 (0, 0, 0, 255)).2
      (by decide)
    rw [h]
    rfl
  · exact (map_to_texture_pixels_spec stamp_image blue_filter 5 3 (9, 0, 0, 255)).1 (by decide)

/-- C8: `modify_texture` with the identity mapper leaves the data buffer
bit-for-bit unchanged on every 4-byte-per-pixel texture. -/
theorem modify_texture_identity (texture : Image)
    (_h : texture.data.length = texture.width * texture.height * 4) :
    (modify_texture texture (fun _ _ pixel => pixel)).data = texture.data := by
  show (List.range texture.width).foldl _ texture.data = texture.data
  apply foldl_fixed
  intro x _ d
  apply foldl_fixed
  intro y _ d
  simp only [set_getD_self]

/-- Witness for C8 at a concrete 1×2 texture. -/
theorem modify_texture_identity_witness :
    checker_image.data.length = checker_image.width * checker_image.height * 4 ∧
    (modify_texture checker_image (fun _ _ pixel => pixel)).data = checker_image.data :=
  ⟨by decide, modify_texture_identity checker_image (by decide)⟩

/-- C9: a `map_to_new_texture` call leaves the original texture unchanged
and the new texture's data is the data `modify_texture` produces from a
copy of the input with the same mapper. -/
theorem map_to_new_texture_frame (texture : Image)
    (pixel_mapper : Nat → Nat → PixelBytes → PixelBytes) :
    (map_to_new_texture_call texture pixel_mapper).1 = texture ∧
    (map_to_new_texture_call texture pixel_mapper).2.data =
      (modify_texture texture pixel_mapper).data := by
  exact ⟨rfl, rfl⟩

/-! ## Order and maximum lemmas -/

theorem foldl_max_init {α : Type} [LinearOrder α] (l : List α) (a : α) :
    a ≤ l.foldl max a := by
  induction l generalizing a with
  | nil => exact le_refl a
  | cons x t ih => exact le_trans (le_max_left a x) (ih (max a x))

theorem foldl_max_mem {α : Type} [LinearOrder α] (l : List α) (a x : α) (hx : x ∈ l) :
    x ≤ l.foldl max a := by
  induction l generalizing a with
  | nil => simp at hx
  | cons b t ih =>
    rcases List.mem_cons.mp hx with rfl | hmem
    · exact le_trans (le_max_right a x) (foldl_max_init t (max a x))
    · exact ih (max a b) hmem

theorem foldl_max_lt {α : Type} [LinearOrder α] (l : List α) (a hi : α) (ha : a < hi)
    (h : ∀ x ∈ l, x < hi) : l.foldl max a < hi := by
  induction l generalizing a with
  | nil => exact ha
  | cons b t ih =>
    exact ih (max a b) (max_lt ha (h b (by simp))) (fun x hx => h x (by simp [hx]))

theorem foldl_min_init {α : Type} [LinearOrder α] (l : List α) (a : α) :
    l.foldl min a ≤ a := by
  induction l generalizing a with
  | nil => exact le_refl a
  | cons x t ih => exact le_trans (ih (min a x)) (min_le_left a x)

theorem foldl_min_ge {α : Type} [LinearOrder α] (l : List α) (a lo : α) (ha : lo ≤ a)
    (h : ∀ x ∈ l, lo ≤ x) : lo ≤ l.foldl min a := by
  induction l generalizing a with
  | nil => exact ha
  | cons b t ih =>
    exact ih (min a b) (le_min ha (h b (by simp))) (fun x hx => h x (by simp [hx]))

theorem foldl_max_perm (l l' : List Nat) (h : l.Perm l') (a : Nat) :
    l.foldl max a = l'.foldl max a := by
  induction h generalizing a with
  | nil => rfl
  | cons x _ ih => simp only [List.foldl_cons, ih]
  | swap x y l =>
    simp only [List.foldl_cons]
    rw [Nat.max_assoc, Nat.max_comm y x, ← Nat.max_assoc]
  | trans _ _ ih1 ih2 => rw [ih1, ih2]

theorem iter_max_le_mem (l : List Nat) (m x : Nat) (h : iter_max l = some m) (hx : x ∈ l) :
    x ≤ m := by
  cases l with
  | nil => simp [iter_max] at h
  | cons a t =>
    simp only [iter_max, Option.some.injEq] at h
    subst h
    rcases List.mem_cons.mp hx with rfl | hmem
    · exact foldl_max_init t x
    · exact foldl_max_mem t a x hmem

theorem iter_max_perm (l l' : List Nat) (h : l.Perm l') : iter_max l = iter_max l' := by
  cases l with
  | nil =>
    cases l' with
    | nil => rfl
    | cons b t => exact absurd h.length_eq (by simp)
  | cons a s =>
    cases l' with
    | nil => exact absurd h.length_eq (by simp)
    | cons b t =>
      simp only [iter_max, Option.some.injEq]
      have h1 : (a :: s).foldl max 0 = (b :: t).foldl max 0 := foldl_max_perm _ _ h 0
      simpa [List.foldl_cons, Nat.zero_max] using h1

theorem mash_width_mergeSort (r : List (Offset × Image)) :
    mash_width (r.mergeSort le_z) = mash_width r :=
  iter_max_perm _ _ ((List.mergeSort_perm r le_z).map _)

theorem mash_height_mergeSort (r : List (Offset × Image)) :
    mash_height (r.mergeSort le_z) = mash_height r :=
  iter_max_perm _ _ ((List.mergeSort_perm r le_z).map _)

/-- Unfolding of `mash_textures` after a successful resolution step. -/
theorem mash_textures_eq (images : List Image) (ohs : List (Offset × Nat))
    (r : List (Offset × Image)) (hres : resolve_offsets images ohs = some r) :
    mash_textures images ohs =
      match mash_width (r.mergeSort le_z), mash_height (r.mergeSort le_z) with
      | some image_width, some image_height =>
        .ok (Image.new image_width image_height
          ((r.mergeSort le_z).foldl (fun d e => write_part image_width d e.1 e.2)
            (List.replicate (image_width * image_height * 4) 0)) .rgba8UnormSrgb)
      | _, _ => .error "No texture handles were provided" := by
  simp only [mash_textures, hres]

/-- C5: on any successful mashup, the output image is as wide as the
maximum reach `offset.x + texture.width` over the resolved input pairs
and as tall as the maximum reach `offset.y + texture.height`. -/
theorem mash_output_dimensions (images : List Image) (ohs : List (Offset × Nat))
    (r : List (Offset × Image)) (img : Image) (W H : Nat)
    (hres : resolve_offsets images ohs = some r)
    (hW : mash_width r = some W) (hH : mash_height r = some H)
    (hok : mash_textures images ohs = .ok img)
    (hW32 : W < 2 ^ 32) (hH32 : H < 2 ^ 32) :
    img.width = W ∧ img.height = H := by
  rw [mash_textures_eq images ohs r hres, mash_width_mergeSort, mash_height_mergeSort,
    hW, hH] at hok
  simp only [] at hok
  injection hok with hok
  subst hok
  exact ⟨Nat.mod_eq_of_lt hW32, Nat.mod_eq_of_lt hH32⟩

/-- Witness for C5: a single 1×1 texture at offset `(0, 0, 5)` gives a
1×1 output. -/
theorem mash_output_dimensions_witness :
    mash_textures [unit_image] [({ x := 0, y := 0, z := 5 }, 0)] = .ok mash_single_image ∧
    mash_single_image.width = 1 ∧ mash_single_image.height = 1 := by
  have hok : mash_textures [unit_image] [({ x := 0, y := 0, z := 5 }, 0)] =
      .ok mash_single_image := by
    rw [mash_textures_eq [unit_image] [({ x := 0, y := 0, z := 5 }, 0)]
      [({ x := 0, y := 0, z := 5 }, unit_image)] rfl]
    rw [List.mergeSort_singleton]
    rfl
  refine ⟨hok, ?_⟩
  exact mash_output_dimensions [unit_image] [({ x := 0, y := 0, z := 5 }, 0)]
    [({ x := 0, y := 0, z := 5 }, unit_image)] mash_single_image 1 1 rfl rfl rfl hok
    (by norm_num) (by norm_num)

/-! ## Index bounds of the mashup loops -/

theorem pixel_index_lt_of (w h x y k : Nat) (hx : x < w) (hy : y < h) (hk : k < 4) :
    pixel_index w x y + k < w * h * 4 := by
  unfold pixel_index
  have h1 : x * 4 + k < w * 4 := by omega
  have h2 : w * 4 * (y + 1) = w * 4 * y + w * 4 := by ring
  have h3 : w * 4 * (y + 1) ≤ w * 4 * h := Nat.mul_le_mul_left (w * 4) hy
  have h4 : w * 4 * h = w * h * 4 := by ring
  omega

/-- C10: inside the compositing loops of `mash_textures`, for a resolved
element `(offset, texture)` whose buffer has the 4-byte-per-pixel length,
every source byte index `part_texture_index + k` lies inside the source
buffer and every destination byte index `mash_texture_index + k` lies
inside the allocated output buffer of `image_width * image_height * 4`
bytes. -/
theorem mash_textures_index_bounds (images : List Image) (ohs : List (Offset × Nat))
    (r : List (Offset × Image)) (e : Offset × Image) (x y k W H : Nat)
    (_hres : resolve_offsets images ohs = some r)
    (he : e ∈ r)
    (hW : mash_width (r.mergeSort le_z) = some W)
    (hH : mash_height (r.mergeSort le_z) = some H)
    (hx : x < e.2.width) (hy : y < e.2.height) (hk : k < 4)
    (hlen : e.2.data.length = e.2.width * e.2.height * 4) :
    pixel_index e.2.width x y + k < e.2.data.length ∧
    pixel_index W (x + e.1.x) (y + e.1.y) + k < W * H * 4 := by
  have heS : e ∈ r.mergeSort le_z := List.mem_mergeSort.mpr he
  simp only [mash_width] at hW
  simp only [mash_height] at hH
  have hreachW : e.1.x + e.2.width ≤ W :=
    iter_max_le_mem _ _ _ hW (List.mem_map.mpr ⟨e, heS, rfl⟩)
  have hreachH : e.1.y + e.2.height ≤ H :=
    iter_max_le_mem _ _ _ hH (List.mem_map.mpr ⟨e, heS, rfl⟩)
  constructor
  · rw [hlen]
    exact pixel_index_lt_of _ _ _ _ _ hx hy hk
  · exact pixel_index_lt_of W H _ _ _ (by omega) (by omega) hk

/-- Witness for C10 on a single 1×1 texture at the origin. -/
theorem mash_textures_index_bounds_witness :
    pixel_index unit_image.width 0 0 + 0 < unit_image.data.length ∧
    pixel_index 1 (0 + unit_offset.x) (0 + unit_offset.y) + 0 < 1 * 1 * 4 := by
  have hW : mash_width ([(unit_offset, unit_image)].mergeSort le_z) = some 1 := by
    rw [List.mergeSort_singleton]
    rfl
  have hH : mash_height ([(unit_offset, unit_image)].mergeSort le_z) = some 1 := by
    rw [List.mergeSort_singleton]
    rfl
  exact mash_textures_index_bounds [unit_image] [(unit_offset, 0)]
    [(unit_offset, unit_image)] (unit_offset, unit_image) 0 0 0 1 1 rfl (by simp)
    hW hH (by decide) (by decide) (by decide) (by decide)

/-! ## Effect of the mashup writes on single output bytes -/

theorem row_col_inj (W a a' b b' : Nat) (ha : a < W) (ha' : a' < W)
    (h : W * b + a = W * b' + a') : b = b' ∧ a = a' := by
  rcases Nat.lt_trichotomy b b' with hlt | heq | hgt
  · exfalso
    have h1 : W * (b + 1) = W * b + W := by ring
    have h2 : W * (b + 1) ≤ W * b' := Nat.mul_le_mul_left W hlt
    omega
  · subst heq
    omega
  · exfalso
    have h1 : W * (b' + 1) = W * b' + W := by ring
    have h2 : W * (b' + 1) ≤ W * b := Nat.mul_le_mul_left W hgt
    omega

theorem pixel_index_inj (W a b a' b' j k : Nat) (ha : a < W) (ha' : a' < W)
    (hj : j < 4) (hk : k < 4)
    (h : pixel_index W a b + j = pixel_index W a' b' + k) :
    a = a' ∧ b = b' ∧ j = k := by
  have e1 : pixel_index W a b + j = (W * b + a) * 4 + j := by unfold pixel_index; ring
  have e2 : pixel_index W a' b' + k = (W * b' + a') * 4 + k := by unfold pixel_index; ring
  rw [e1, e2] at h
  have h5 : W * b + a = W * b' + a' ∧ j = k := by omega
  obtain ⟨h5, rfl⟩ := h5
  have h6 := row_col_inj W a a' b b' ha ha' h5
  exact ⟨h6.2, h6.1, rfl⟩

theorem getD_set4 (d : List Nat) (mi q v0 v1 v2 v3 : Nat) (hq : q < d.length) :
    ((((d.set mi v0).set (mi + 1) v1).set (mi + 2) v2).set (mi + 3) v3).getD q 0 =
      if q = mi + 3 then v3 else if q = mi + 2 then v2 else if q = mi + 1 then v1
      else if q = mi then v0 else d.getD q 0 := by
  simp only [getD_set_eq_ite, List.length_set]
  split_ifs <;> first | rfl | omega

theorem write_pixel_length (W : Nat) (o : Offset) (t : Image) (y x : Nat) (d : List Nat) :
    (write_pixel W o t y x d).length = d.length := by
  simp [write_pixel]

theorem write_row_length (W : Nat) (o : Offset) (t : Image) (y : Nat) (d : List Nat) :
    (write_row W o t y d).length = d.length :=
  foldl_length (fun d x => write_pixel W o t y x d) (List.range t.width) d
    (fun b x => write_pixel_length W o t y x b)

theorem write_part_length (W : Nat) (d : List Nat) (o : Offset) (t : Image) :
    (write_part W d o t).length = d.length :=
  foldl_length (fun d y => write_row W o t y d) (List.range t.height) d
    (fun b y => write_row_length W o t y b)

theorem write_pixel_getD (W : Nat) (o : Offset) (t : Image) (y x px py k : Nat)
    (d : List Nat) (hxW : x + o.x < W) (hpx : px < W) (hk : k < 4)
    (hq : pixel_index W px py + k < d.length) :
    (write_pixel W o t y x d).getD (pixel_index W px py + k) 0 =
      if px = x + o.x ∧ py = y + o.y then t.data.getD (pixel_index t.width x y + k) 0
      else d.getD (pixel_index W px py + k) 0 := by
  have hform : write_pixel W o t y x d =
      ((((d.set (pixel_index W (x + o.x) (y + o.y))
            (t.data.getD (pixel_index t.width x y) 0)).set
          (pixel_index W (x + o.x) (y + o.y) + 1)
            (t.data.getD (pixel_index t.width x y + 1) 0)).set
          (pixel_index W (x + o.x) (y + o.y) + 2)
            (t.data.getD (pixel_index t.width x y + 2) 0)).set
          (pixel_index W (x + o.x) (y + o.y) + 3)
            (t.data.getD (pixel_index t.width x y + 3) 0)) := rfl
  rw [hform, getD_set4 _ _ _ _ _ _ _ hq]
  by_cases hmatch : px = x + o.x ∧ py = y + o.y
  · obtain ⟨h1, h2⟩ := hmatch
    subst h1
    subst h2
    have hc : (x + o.x = x + o.x ∧ y + o.y = y + o.y) := ⟨rfl, rfl⟩
    rw [if_pos hc]
    have c3 : (pixel_index W (x + o.x) (y + o.y) + k = pixel_index W (x + o.x) (y + o.y) + 3)
        ↔ k = 3 := by omega
    have c2 : (pixel_index W (x + o.x) (y + o.y) + k = pixel_index W (x + o.x) (y + o.y) + 2)
        ↔ k = 2 := by omega
    have c1 : (pixel_index W (x + o.x) (y + o.y) + k = pixel_index W (x + o.x) (y + o.y) + 1)
        ↔ k = 1 := by omega
    have c0 : (pixel_index W (x + o.x) (y + o.y) + k = pixel_index W (x + o.x) (y + o.y))
        ↔ k = 0 := by omega
    rw [if_congr c3 rfl rfl, if_congr c2 rfl rfl, if_congr c1 rfl rfl, if_congr c0 rfl rfl]
    interval_cases k <;> simp
  · have hne : ∀ j, j < 4 →
        ¬(pixel_index W px py + k = pixel_index W (x + o.x) (y + o.y) + j) := by
      intro j hj heq
      have h6 := pixel_index_inj W px py (x + o.x) (y + o.y) k j hpx hxW hk hj heq
      exact hmatch ⟨h6.1, h6.2.1⟩
    have hne0 : ¬(pixel_index W px py + k = pixel_index W (x + o.x) (y + o.y)) := by
      have := hne 0 (by omega)
      omega
    rw [if_neg (hne 3 (by omega)), if_neg (hne 2 (by omega)), if_neg (hne 1 (by omega)),
      if_neg hne0, if_neg hmatch]

theorem write_row_aux (W : Nat) (o : Offset) (t : Image) (y px py k : Nat) (n : Nat)
    (hn : n ≤ t.width) (hreach : o.x + t.width ≤ W) (hpx : px < W) (hk : k < 4) :
    ∀ d : List Nat, pixel_index W px py + k < d.length →
    ((List.range n).foldl (fun d x => write_pixel W o t y x d) d).getD
        (pixel_index W px py + k) 0 =
      if o.x ≤ px ∧ px < o.x + n ∧ py = y + o.y then
        t.data.getD (pixel_index t.width (px - o.x) y + k) 0
      else d.getD (pixel_index W px py + k) 0 := by
  induction n with
  | zero =>
    intro d hd
    simp only [List.range_zero, List.foldl_nil]
    rw [if_neg (by omega)]
  | succ n ih =>
    intro d hd
    rw [List.range_succ, List.foldl_append, List.foldl_cons, List.foldl_nil]
    have hlen : ((List.range n).foldl (fun d x => write_pixel W o t y x d) d).length =
        d.length :=
      foldl_length (fun d x => write_pixel W o t y x d) (List.range n) d
        (fun b x => write_pixel_length W o t y x b)
    rw [write_pixel_getD W o t y n px py k _ (by omega) hpx hk (by rw [hlen]; exact hd)]
    rw [ih (by omega) d hd]
    by_cases hcase : px = n + o.x ∧ py = y + o.y
    · obtain ⟨h1, h2⟩ := hcase
      rw [if_pos ⟨h1, h2⟩, if_pos (by omega)]
      have : px - o.x = n := by omega
      rw [this]
    · rw [if_neg hcase]
      have hiff : (o.x ≤ px ∧ px < o.x + n ∧ py = y + o.y) ↔
          (o.x ≤ px ∧ px < o.x + (n + 1) ∧ py = y + o.y) := by
        constructor
        · rintro ⟨a, b, c⟩
          exact ⟨a, by omega, c⟩
        · rintro ⟨a, b, c⟩
          refine ⟨a, ?_, c⟩
          have hne : px ≠ n + o.x := fun hx => hcase ⟨hx, c⟩
          omega
      rw [if_congr hiff rfl rfl]

theorem write_row_getD (W : Nat) (o : Offset) (t : Image) (y px py k : Nat) (d : List Nat)
    (hreach : o.x + t.width ≤ W) (hpx : px < W) (hk : k < 4)
    (hd : pixel_index W px py + k < d.length) :
    (write_row W o t y d).getD (pixel_index W px py + k) 0 =
      if o.x ≤ px ∧ px < o.x + t.width ∧ py = y + o.y then
        t.data.getD (pixel_index t.width (px - o.x) y + k) 0
      else d.getD (pixel_index W px py + k) 0 :=
  write_row_aux W o t y px py k t.width (le_refl _) hreach hpx hk d hd

theorem write_part_aux (W : Nat) (o : Offset) (t : Image) (px py k : Nat) (m : Nat)
    (hm : m ≤ t.height) (hreach : o.x + t.width ≤ W) (hpx : px < W) (hk : k < 4) :
    ∀ d : List Nat, pixel_index W px py + k < d.length →
    ((List.range m).foldl (fun d y => write_row W o t y d) d).getD
        (pixel_index W px py + k) 0 =
      if o.x ≤ px ∧ px < o.x + t.width ∧ o.y ≤ py ∧ py < o.y + m then
        t.data.getD (pixel_index t.width (px - o.x) (py - o.y) + k) 0
      else d.getD (pixel_index W px py + k) 0 := by
  induction m with
  | zero =>
    intro d hd
    simp only [List.range_zero, List.foldl_nil]
    rw [if_neg (by omega)]
  | succ m ih =>
    intro d hd
    rw [List.range_succ, List.foldl_append, List.foldl_cons, List.foldl_nil]
    have hlen : ((List.range m).foldl (fun d y => write_row W o t y d) d).length =
        d.length :=
      foldl_length (fun d y => write_row W o t y d) (List.range m) d
        (fun b y => write_row_length W o t y b)
    rw [write_row_getD W o t m px py k _ hreach hpx hk (by rw [hlen]; exact hd)]
    rw [ih (by omega) d hd]
    by_cases hcase : o.x ≤ px ∧ px < o.x + t.width ∧ py = m + o.y
    · obtain ⟨h1, h2, h3⟩ := hcase
      rw [if_pos ⟨h1, h2, h3⟩, if_pos (by omega)]
      have : py - o.y = m := by omega
      rw [this]
    · rw [if_neg hcase]
      have hiff : (o.x ≤ px ∧ px < o.x + t.width ∧ o.y ≤ py ∧ py < o.y + m) ↔
          (o.x ≤ px ∧ px < o.x + t.width ∧ o.y ≤ py ∧ py < o.y + (m + 1)) := by
        constructor
        · rintro ⟨a, b, c, e⟩
          exact ⟨a, b, c, by omega⟩
        · rintro ⟨a, b, c, e⟩
          refine ⟨a, b, c, ?_⟩
          have hne : py ≠ m + o.y := fun hy => hcase ⟨a, b, hy⟩
          omega
      rw [if_congr hiff rfl rfl]

theorem write_part_getD (W : Nat) (o : Offset) (t : Image) (px py k : Nat) (d : List Nat)
    (hreach : o.x + t.width ≤ W) (hpx : px < W) (hk : k < 4)
    (hd : pixel_index W px py + k < d.length) :
    (write_part W d o t).getD (pixel_index W px py + k) 0 =
      if covers (o, t) px py then
        t.data.getD (pixel_index t.width (px - o.x) (py - o.y) + k) 0
      else d.getD (pixel_index W px py + k) 0 :=
  write_part_aux W o t px py k t.height (le_refl _) hreach hpx hk d hd

theorem fold_write_preserve (W px py k : Nat) (s : List (Offset × Image)) (d : List Nat)
    (hpx : px < W) (hk : k < 4) (hq : pixel_index W px py + k < d.length)
    (hns : ∀ a ∈ s, ¬ covers a px py ∧ a.1.x + a.2.width ≤ W) :
    (s.foldl (fun d e => write_part W d e.1 e.2) d).getD (pixel_index W px py + k) 0 =
      d.getD (pixel_index W px py + k) 0 := by
  induction s generalizing d with
  | nil => rfl
  | cons a s ih =>
    rw [List.foldl_cons]
    have ha := hns a (by simp)
    rw [ih _ (by rw [write_part_length]; exact hq) (fun b hb => hns b (by simp [hb]))]
    rw [write_part_getD W a.1 a.2 px py k d ha.2 hpx hk hq]
    rw [if_neg ha.1]

/-! ## Stability of the depth sort and the painter property -/

theorem le_z_trans : ∀ (a b c : Offset × Image), le_z a b → le_z b c → le_z a c := by
  intro a b c h1 h2
  simp only [le_z, decide_eq_true_eq] at h1 h2 ⊢
  omega

theorem le_z_total : ∀ (a b : Offset × Image), le_z a b || le_z b a := by
  intro a b
  simp only [le_z, Bool.or_eq_true, decide_eq_true_eq]
  omega

theorem enumLE_le_z (j i : Nat) (e a' : Offset × Image)
    (h : List.enumLE le_z (j, e) (i, a') = true) :
    e.1.z < a'.1.z ∨ (e.1.z = a'.1.z ∧ j ≤ i) := by
  unfold List.enumLE at h
  cases hab : le_z e a' with
  | false => simp [hab] at h
  | true =>
    cases hba : le_z a' e with
    | false =>
      simp only [le_z, decide_eq_true_eq, decide_eq_false_iff_not] at hab hba
      omega
    | true =>
      simp only [hab, hba, if_true, decide_eq_true_eq] at h
      simp only [le_z, decide_eq_true_eq] at hab hba
      omega

theorem sorted_decomposition (r r1 r2 : List (Offset × Image)) (e : Offset × Image)
    (px py : Nat) (hsplit : r = r1 ++ e :: r2)
    (h1 : ∀ a ∈ r1, covers a px py → a.1.z ≤ e.1.z)
    (h2 : ∀ a ∈ r2, covers a px py → a.1.z < e.1.z) :
    ∃ s1 s2, r.mergeSort le_z = s1 ++ e :: s2 ∧ ∀ a ∈ s2, ¬ covers a px py := by
  have henum : (List.mergeSort (r.enum) (List.enumLE le_z)).map Prod.snd = r.mergeSort le_z :=
    List.mergeSort_enum
  set E := List.mergeSort (r.enum) (List.enumLE le_z) with hE_def
  have hrj : r[r1.length]? = some e := by
    rw [hsplit, List.getElem?_append_right (le_refl r1.length)]
    simp
  have hjenum : (r1.length, e) ∈ r.enum := List.mk_mem_enum_iff_getElem?.mpr hrj
  have hjE : (r1.length, e) ∈ E := by
    rw [hE_def]
    exact List.mem_mergeSort.mpr hjenum
  obtain ⟨E1, E2, hEsplit⟩ := List.append_of_mem hjE
  have hsorted : E.Pairwise (fun a b => List.enumLE le_z a b) := by
    rw [hE_def]
    exact List.sorted_mergeSort (List.enumLE_trans le_z_trans) (List.enumLE_total le_z_total) _
  have hpair : ∀ b ∈ E2, List.enumLE le_z (r1.length, e) b := by
    have hsub : ((r1.length, e) :: E2).Sublist E := by
      rw [hEsplit]
      exact List.sublist_append_right E1 _
    have hp := List.Pairwise.sublist hsub hsorted
    exact (List.pairwise_cons.mp hp).1
  have hperm : E.Perm r.enum := by
    rw [hE_def]
    exact List.mergeSort_perm _ _
  have hnodup : (E.map Prod.fst).Nodup := by
    have hperm2 : (E.map Prod.fst).Perm (r.enum.map Prod.fst) := hperm.map _
    rw [List.enum_map_fst] at hperm2
    exact hperm2.nodup_iff.mpr (List.nodup_range _)
  refine ⟨E1.map Prod.snd, E2.map Prod.snd, ?_, ?_⟩
  · rw [← henum, hEsplit]
    simp
  · intro a ha hcov
    obtain ⟨⟨i, a'⟩, hpE2, hpa⟩ := List.mem_map.mp ha
    subst hpa
    simp only [] at hcov
    have hiE : (i, a') ∈ E := by
      rw [hEsplit]
      exact List.mem_append_right _ (List.mem_cons_of_mem _ hpE2)
    have hienum : (i, a') ∈ r.enum := hperm.mem_iff.mp hiE
    have hri : r[i]? = some a' := List.mk_mem_enum_iff_getElem?.mp hienum
    have hij : i ≠ r1.length := by
      intro hh
      subst hh
      have hmapsplit : E.map Prod.fst =
          E1.map Prod.fst ++ r1.length :: E2.map Prod.fst := by
        rw [hEsplit]
        simp
      rw [hmapsplit] at hnodup
      have hsubl : (r1.length :: E2.map Prod.fst).Sublist
          (E1.map Prod.fst ++ r1.length :: E2.map Prod.fst) :=
        List.sublist_append_right _ _
      have hnd2 := List.Nodup.sublist hsubl hnodup
      have hnotin : r1.length ∉ E2.map Prod.fst := (List.nodup_cons.mp hnd2).1
      exact hnotin (List.mem_map.mpr ⟨(r1.length, a'), hpE2, rfl⟩)
    have hz := enumLE_le_z r1.length i e a' (hpair (i, a') hpE2)
    rcases Nat.lt_or_ge i r1.length with hlt | hge
    · have hr1i : r1[i]? = some a' := by
        rw [hsplit] at hri
        rwa [List.getElem?_append_left hlt] at hri
      have ha1 : a' ∈ r1 := List.getElem?_mem hr1i
      have hle := h1 a' ha1 hcov
      omega
    · have hgt : r1.length < i := by omega
      have hr2i : r2[i - r1.length - 1]? = some a' := by
        rw [hsplit] at hri
        rw [List.getElem?_append_right (by omega : r1.length ≤ i)] at hri
        rw [show i - r1.length = (i - r1.length - 1) + 1 by omega] at hri
        rw [List.getElem?_cons_succ] at hri
        exact hri
      have ha2 : a' ∈ r2 := List.getElem?_mem hr2i
      have hlt2 := h2 a' ha2 hcov
      omega

/-- C3: on a successful mashup, at any output pixel `(px, py)`, the element
`e` that covers it and dominates every other covering element — strictly
greater `z` than all covering elements after it in input order, at least
as great a `z` as all covering elements before it — provides the output
pixel, byte for byte (stable ascending sort by `z`, last writer wins). -/
theorem mash_overlap_painter (images : List Image) (ohs : List (Offset × Nat))
    (r r1 r2 : List (Offset × Image)) (e : Offset × Image) (img : Image)
    (W H px py : Nat)
    (hres : resolve_offsets images ohs = some r)
    (hsplit : r = r1 ++ e :: r2)
    (hW : mash_width (r.mergeSort le_z) = some W)
    (hH : mash_height (r.mergeSort le_z) = some H)
    (hok : mash_textures images ohs = .ok img)
    (hcov : covers e px py)
    (h1 : ∀ a ∈ r1, covers a px py → a.1.z ≤ e.1.z)
    (h2 : ∀ a ∈ r2, covers a px py → a.1.z < e.1.z)
    (hW32 : W < 2 ^ 32) :
    texture_pixel img px py = texture_pixel e.2 (px - e.1.x) (py - e.1.y) := by
  rw [mash_textures_eq images ohs r hres, hW, hH] at hok
  simp only [] at hok
  injection hok with hok
  subst hok
  have hmem_bound : ∀ a ∈ r.mergeSort le_z, a.1.x + a.2.width ≤ W ∧ a.1.y + a.2.height ≤ H := by
    intro a ha
    constructor
    · exact iter_max_le_mem _ W _ (by simpa [mash_width] using hW)
        (List.mem_map.mpr ⟨a, ha, rfl⟩)
    · exact iter_max_le_mem _ H _ (by simpa [mash_height] using hH)
        (List.mem_map.mpr ⟨a, ha, rfl⟩)
  have heS : e ∈ r.mergeSort le_z := by
    apply List.mem_mergeSort.mpr
    rw [hsplit]
    exact List.mem_append_right _ (List.mem_cons_self _ _)
  have hpxW : px < W := by
    have hb := (hmem_bound e heS).1
    obtain ⟨_, hx, _, _⟩ := hcov
    omega
  have hpyH : py < H := by
    have hb := (hmem_bound e heS).2
    obtain ⟨_, _, _, hy⟩ := hcov
    omega
  obtain ⟨s1, s2, hS, hns⟩ := sorted_decomposition r r1 r2 e px py hsplit h1 h2
  have hq : ∀ k, k < 4 → pixel_index W px py + k < W * H * 4 := fun k hk =>
    pixel_index_lt_of W H px py k hpxW hpyH hk
  have hlen1 : (s1.foldl (fun d a => write_part W d a.1 a.2)
      (List.replicate (W * H * 4) 0)).length = W * H * 4 := by
    have hfl := foldl_length (fun (d : List Nat) (a : Offset × Image) => write_part W d a.1 a.2)
      s1 (List.replicate (W * H * 4) 0) (fun b a => write_part_length W b a.1 a.2)
    rw [hfl, List.length_replicate]
  have hbyte : ∀ k, k < 4 →
      ((r.mergeSort le_z).foldl (fun d a => write_part W d a.1 a.2)
        (List.replicate (W * H * 4) 0)).getD (pixel_index W px py + k) 0 =
      e.2.data.getD (pixel_index e.2.width (px - e.1.x) (py - e.1.y) + k) 0 := by
    intro k hk
    rw [hS, List.foldl_append, List.foldl_cons]
    rw [fold_write_preserve W px py k s2 _ hpxW hk
      (by rw [write_part_length, hlen1]; exact hq k hk)
      (fun a ha => ⟨hns a ha, (hmem_bound a (by
        rw [hS]
        exact List.mem_append_right _ (List.mem_cons_of_mem _ ha))).1⟩)]
    rw [write_part_getD W e.1 e.2 px py k _ (hmem_bound e heS).1 hpxW hk
      (by rw [hlen1]; exact hq k hk)]
    rw [if_pos hcov]
  have h0 := hbyte 0 (by omega)
  have h1b := hbyte 1 (by omega)
  have h2b := hbyte 2 (by omega)
  have h3b := hbyte 3 (by omega)
  simp only [Nat.add_zero] at h0
  simp only [texture_pixel, Image.new]
  rw [Nat.mod_eq_of_lt hW32]
  rw [h0, h1b, h2b, h3b]

/-- Witness for C3: a 1×1 texture with depth 0 and a 1×1 texture with
depth 1 both cover the origin; the output pixel is the depth-1 texture's
pixel. -/
theorem mash_overlap_painter_witness :
    mash_textures [red_image, blue_image]
        [({ x := 0, y := 0, z := 0 }, 0), ({ x := 0, y := 0, z := 1 }, 1)] =
      .ok mash_witness_image ∧
    texture_pixel mash_witness_image 0 0 = texture_pixel blue_image 0 0 := by
  have hres : resolve_offsets [red_image, blue_image]
      [({ x := 0, y := 0, z := 0 }, 0), ({ x := 0, y := 0, z := 1 }, 1)] =
      some [({ x := 0, y := 0, z := 0 }, red_image),
            ({ x := 0, y := 0, z := 1 }, blue_image)] := rfl
  have hsort : ([({ x := 0, y := 0, z := 0 }, red_image),
        ({ x := 0, y := 0, z := 1 }, blue_image)] : List (Offset × Image)).mergeSort le_z =
      [({ x := 0, y := 0, z := 0 }, red_image), ({ x := 0, y := 0, z := 1 }, blue_image)] :=
    List.mergeSort_of_sorted (by decide)
  have hok : mash_textures [red_image, blue_image]
      [({ x := 0, y := 0, z := 0 }, 0), ({ x := 0, y := 0, z := 1 }, 1)] =
      .ok mash_witness_image := by
    rw [mash_textures_eq _ _ _ hres, hsort]
    rfl
  refine ⟨hok, ?_⟩
  exact mash_overlap_painter [red_image, blue_image]
    [({ x := 0, y := 0, z := 0 }, 0), ({ x := 0, y := 0, z := 1 }, 1)]
    [({ x := 0, y := 0, z := 0 }, red_image), ({ x := 0, y := 0, z := 1 }, blue_image)]
    [({ x := 0, y := 0, z := 0 }, red_image)] []
    ({ x := 0, y := 0, z := 1 }, blue_image) mash_witness_image 1 1 0 0
    hres rfl (by rw [hsort]; rfl) (by rw [hsort]; rfl) hok (by decide) (by decide) (by decide)
    (by norm_num)

/-! ## Error handling of the two compositors -/

/-- C6: an empty placement input makes `create_tile_map_texture` fail with
its no-tiles error and `mash_textures` fail with its no-handles error; in
either case an error value is returned, not a successfully created
buffer. -/
theorem empty_input_errors (c : TileMapTextureCreator) (images : List Image) :
    c.create_tile_map_texture images [] = .error "No tiles were provided!" ∧
    mash_textures images [] = .error "No texture handles were provided" := by
  constructor
  · rfl
  · simp [mash_textures, resolve_offsets, List.mergeSort_nil, mash_width, mash_height, iter_max]

/-- Helper for C1: when every handle of the placement list resolves but
some resolved texture has a format other than the configured one, the
resolution step fails with the format error. -/
theorem resolve_position_textures_format_error (images : List Image) (fmt : TextureFormat)
    (pts : List (Position × Nat))
    (hloaded : ∀ e ∈ pts, (images[e.2]?).isSome)
    (hbad : ∃ e ∈ pts, ∃ t, images[e.2]? = some t ∧ t.format ≠ fmt) :
    resolve_position_textures images fmt pts =
      .error "Not all textures have the configured texture format." := by
  induction pts with
  | nil => simp at hbad
  | cons hd rest ih =>
    obtain ⟨pos, handle⟩ := hd
    have hhd := hloaded ⟨pos, handle⟩ (by simp)
    obtain ⟨t, ht⟩ := Option.isSome_iff_exists.mp hhd
    by_cases hfmt : t.format = fmt
    · have hrest : ∃ e ∈ rest, ∃ u, images[e.2]? = some u ∧ u.format ≠ fmt := by
        obtain ⟨e, he, u, hu, hune⟩ := hbad
        rcases List.mem_cons.mp he with heq | hmem
        · subst heq
          rw [ht] at hu
          cases hu
          exact absurd hfmt hune
        · exact ⟨e, hmem, u, hu, hune⟩
      have := ih (fun e he => hloaded e (List.mem_cons_of_mem _ he)) hrest
      simp only [resolve_position_textures, ht, hfmt, if_true, this]
    · simp only [resolve_position_textures, ht, hfmt, if_false]

/-- C1 (amended): if every handle resolves and some resolved texture's
pixel format differs from the configured format, the whole call returns
the format error. (Tile dimensions are not part of the check.) -/
theorem create_tile_map_texture_format_mismatch (c : TileMapTextureCreator)
    (images : List Image) (pts : List (Position × Nat))
    (hloaded : ∀ e ∈ pts, (images[e.2]?).isSome)
    (hbad : ∃ e ∈ pts, ∃ t, images[e.2]? = some t ∧ t.format ≠ c.texture_format) :
    c.create_tile_map_texture images pts =
      .error "Not all textures have the configured texture format." := by
  have h := resolve_position_textures_format_error images c.texture_format pts hloaded hbad
  simp [TileMapTextureCreator.create_tile_map_texture, h]

/-- Witness for C1 (amended): a single 2×2 `Rgba8Unorm` tile against an
`Rgba8UnormSrgb` 2×2 configuration is rejected with the format error. -/
theorem create_tile_map_texture_format_mismatch_witness :
    (∀ e ∈ [((⟨0, 0⟩ : Position), 0)], (([wrong_format_image])[e.2]?).isSome) ∧
    (TileMapTextureCreator.new .rgba8UnormSrgb 2 2).create_tile_map_texture
        [wrong_format_image] [(⟨0, 0⟩, 0)] =
      .error "Not all textures have the configured texture format." :=
  ⟨by decide,
   create_tile_map_texture_format_mismatch (TileMapTextureCreator.new .rgba8UnormSrgb 2 2)
     [wrong_format_image] [(⟨0, 0⟩, 0)] (by decide)
     ⟨(⟨0, 0⟩, 0), by decide, wrong_format_image, by decide⟩⟩

/-- Counterexample to C1 as stated: a resolved texture whose format
matches the configured format but whose dimensions (4×4) differ from the
configured tile size (2×2) is accepted — the call returns a success, not
a `FormatMismatchError`. -/
theorem create_tile_map_texture_accepts_wrong_dimensions :
    mismatched_tile_image.format =
      (TileMapTextureCreator.new .rgba8UnormSrgb 2 2).texture_format ∧
    mismatched_tile_image.width ≠ (TileMapTextureCreator.new .rgba8UnormSrgb 2 2).tile_width ∧
    mismatched_tile_image.height ≠
      (TileMapTextureCreator.new .rgba8UnormSrgb 2 2).tile_height ∧
    ((TileMapTextureCreator.new .rgba8UnormSrgb 2 2).create_tile_map_texture
        [mismatched_tile_image] [(⟨0, 0⟩, 0)]).isOk = true := by
  refine ⟨rfl, by decide, by decide, ?_⟩
  rfl

/-- C2 (code bug): with a non-square 3×2 tile that resolves and exactly
matches the configured `TileSpec`, the output pixel at grid cell `(0, 0)`,
local pixel `(2, 1)` — output column 2, row 1 — is `(0, 0, 0, 0)` although
the tile's pixel `(2, 1)` is `(20, 21, 22, 23)`: the copy loop advances
rows by `tile_height` where `tile_width` is required, so the claimed
byte-for-byte placement fails for non-square tiles. -/
theorem tile_copy_misplaces_nonsquare_tiles :
    ((TileMapTextureCreator.new .rgba8UnormSrgb 3 2).create_tile_map_texture
        [rect_tile_image] [(⟨0, 0⟩, 0)]).map (fun img => texture_pixel img 2 1) =
      .ok (0, 0, 0, 0) ∧
    texture_pixel rect_tile_image 2 1 = (20, 21, 22, 23) := by
  constructor
  · rfl
  · rfl

/-! ## Output dimensions of the tile-map compositor -/

theorem resolve_position_textures_keys (images : List Image) (fmt : TextureFormat)
    (pts : List (Position × Nat)) (m : List (Position × Image))
    (h : resolve_position_textures images fmt pts = .ok m) :
    m.map Prod.fst = pts.map Prod.fst := by
  induction pts generalizing m with
  | nil =>
    simp only [resolve_position_textures, Except.ok.injEq] at h
    subst h
    rfl
  | cons hd rest ih =>
    obtain ⟨pos, handle⟩ := hd
    simp only [resolve_position_textures] at h
    cases himg : images[handle]? with
    | none =>
      rw [himg] at h
      simp at h
    | some t =>
      rw [himg] at h
      simp only [] at h
      by_cases hf : t.format = fmt
      · rw [if_pos hf] at h
        cases hrest : resolve_position_textures images fmt rest with
        | error e2 =>
          rw [hrest] at h
          simp at h
        | ok m2 =>
          rw [hrest] at h
          simp only [Except.ok.injEq] at h
          subst h
          simp [ih m2 hrest]
      · rw [if_neg hf] at h
        simp at h

theorem wrap_span (M m : Int) (hm : m ≤ M) (hlo : -(2 ^ 62) ≤ m) (hhi : M < 2 ^ 62) :
    wrap_add (wrap_sub (usize_of_int M) (usize_of_int m)) 1 = (M - m + 1).toNat := by
  unfold wrap_add wrap_sub usize_of_int
  have hN : (2 : Nat) ^ 64 = 18446744073709551616 := by norm_num
  have hI : (2 : Int) ^ 64 = 18446744073709551616 := by norm_num
  have hN62 : (2 : Int) ^ 62 = 4611686018427387904 := by norm_num
  rw [hN, hI]
  rw [hN62] at hlo hhi
  omega

/-- C4: on a successful tile-map creation with all grid coordinates inside
a comfortable signed range and the resulting pixel extents below `2^32`,
the output image measures `(maxX - minX + 1) * tileWidth` by
`(maxY - minY + 1) * tileHeight` pixels, the bounds taken over the
grid-position keys of the placement map. -/
theorem create_tile_map_dimensions (c : TileMapTextureCreator) (images : List Image)
    (pts : List (Position × Nat)) (img : Image)
    (hok : c.create_tile_map_texture images pts = .ok img)
    (hbx : ∀ e ∈ pts, -(2 ^ 62) ≤ e.1.x ∧ e.1.x < 2 ^ 62)
    (hby : ∀ e ∈ pts, -(2 ^ 62) ≤ e.1.y ∧ e.1.y < 2 ^ 62)
    (hw32 : (grid_span (pts.map (fun e => e.1.x))).toNat * c.tile_width < 2 ^ 32)
    (hh32 : (grid_span (pts.map (fun e => e.1.y))).toNat * c.tile_height < 2 ^ 32) :
    img.width = (grid_span (pts.map (fun e => e.1.x))).toNat * c.tile_width ∧
    img.height = (grid_span (pts.map (fun e => e.1.y))).toNat * c.tile_height := by
  unfold TileMapTextureCreator.create_tile_map_texture at hok
  cases hres : resolve_position_textures images c.texture_format pts with
  | error err =>
    rw [hres] at hok
    simp at hok
  | ok m =>
    rw [hres] at hok
    simp only [] at hok
    have hkeys := resolve_position_textures_keys images c.texture_format pts m hres
    have hxs : m.map (fun e => e.1.x) = pts.map (fun e => e.1.x) := by
      have h1 : m.map (fun e => e.1.x) = (m.map Prod.fst).map (fun p => p.x) := by
        simp [List.map_map, Function.comp]
      have h2 : pts.map (fun e => e.1.x) = (pts.map Prod.fst).map (fun p => p.x) := by
        simp [List.map_map, Function.comp]
      rw [h1, h2, hkeys]
    have hys : m.map (fun e => e.1.y) = pts.map (fun e => e.1.y) := by
      have h1 : m.map (fun e => e.1.y) = (m.map Prod.fst).map (fun p => p.y) := by
        simp [List.map_map, Function.comp]
      have h2 : pts.map (fun e => e.1.y) = (pts.map Prod.fst).map (fun p => p.y) := by
        simp [List.map_map, Function.comp]
      rw [h1, h2, hkeys]
    cases pts with
    | nil =>
      have hm : m = [] := by
        have := hkeys
        simp only [List.map_nil] at this
        exact List.map_eq_nil_iff.mp this
      subst hm
      simp [get_max_x] at hok
    | cons e0 rest =>
      simp only [List.map_cons] at hxs hys
      have hgmaxx : get_max_x m =
          .ok (usize_of_int ((rest.map (fun e => e.1.x)).foldl max e0.1.x)) := by
        unfold get_max_x
        rw [hxs]
      have hgminx : get_min_x m =
          .ok (usize_of_int ((rest.map (fun e => e.1.x)).foldl min e0.1.x)) := by
        unfold get_min_x
        rw [hxs]
      have hgmaxy : get_max_y m =
          .ok (usize_of_int ((rest.map (fun e => e.1.y)).foldl max e0.1.y)) := by
        unfold get_max_y
        rw [hys]
      have hgminy : get_min_y m =
          .ok (usize_of_int ((rest.map (fun e => e.1.y)).foldl min e0.1.y)) := by
        unfold get_min_y
        rw [hys]
      rw [hgmaxx, hgminx, hgmaxy, hgminy] at hok
      simp only [] at hok
      injection hok with hok
      subst hok
      have hb0 := hbx e0 (by simp)
      have hbmx : ∀ v ∈ rest.map (fun e => e.1.x), -(2 ^ 62) ≤ v ∧ v < 2 ^ 62 := by
        intro v hv
        obtain ⟨a, hmem, rfl⟩ := List.mem_map.mp hv
        exact hbx a (by simp [hmem])
      have hb0y := hby e0 (by simp)
      have hbmy : ∀ v ∈ rest.map (fun e => e.1.y), -(2 ^ 62) ≤ v ∧ v < 2 ^ 62 := by
        intro v hv
        obtain ⟨a, hmem, rfl⟩ := List.mem_map.mp hv
        exact hby a (by simp [hmem])
      have hMx : (rest.map (fun e => e.1.x)).foldl max e0.1.x < 2 ^ 62 :=
        foldl_max_lt _ _ _ hb0.2 (fun v hv => (hbmx v hv).2)
      have hmx : -(2 ^ 62) ≤ (rest.map (fun e => e.1.x)).foldl min e0.1.x :=
        foldl_min_ge _ _ _ hb0.1 (fun v hv => (hbmx v hv).1)
      have hMy : (rest.map (fun e => e.1.y)).foldl max e0.1.y < 2 ^ 62 :=
        foldl_max_lt _ _ _ hb0y.2 (fun v hv => (hbmy v hv).2)
      have hmy : -(2 ^ 62) ≤ (rest.map (fun e => e.1.y)).foldl min e0.1.y :=
        foldl_min_ge _ _ _ hb0y.1 (fun v hv => (hbmy v hv).1)
      have hlex : (rest.map (fun e => e.1.x)).foldl min e0.1.x ≤
          (rest.map (fun e => e.1.x)).foldl max e0.1.x :=
        le_trans (foldl_min_init _ _) (foldl_max_init _ _)
      have hley : (rest.map (fun e => e.1.y)).foldl min e0.1.y ≤
          (rest.map (fun e => e.1.y)).foldl max e0.1.y :=
        le_trans (foldl_min_init _ _) (foldl_max_init _ _)
      have hwidth := wrap_span _ _ hlex hmx hMx
      have hheight := wrap_span _ _ hley hmy hMy
      have hspanx : grid_span (e0.1.x :: rest.map (fun e => e.1.x)) =
          (rest.map (fun e => e.1.x)).foldl max e0.1.x -
            (rest.map (fun e => e.1.x)).foldl min e0.1.x + 1 := rfl
      have hspany : grid_span (e0.1.y :: rest.map (fun e => e.1.y)) =
          (rest.map (fun e => e.1.y)).foldl max e0.1.y -
            (rest.map (fun e => e.1.y)).foldl min e0.1.y + 1 := rfl
      simp only [List.map_cons, hspanx, hspany] at hw32 hh32 ⊢
      simp only [TileMapTextureCreator.create_image_from_data, Image.new]
      rw [hwidth, hheight]
      exact ⟨Nat.mod_eq_of_lt hw32, Nat.mod_eq_of_lt hh32⟩

/-- Witness for C4: one 1×1 tile at grid `(0, 0)` under a 1×1 `TileSpec`
gives a 1×1 output image. -/
theorem create_tile_map_dimensions_witness :
    (TileMapTextureCreator.new .rgba8UnormSrgb 1 1).create_tile_map_texture
        [single_tile_image] [(⟨0, 0⟩, 0)] = .ok witness_tile_map_image ∧
    witness_tile_map_image.width = 1 ∧ witness_tile_map_image.height = 1 := by
  have hok : (TileMapTextureCreator.new .rgba8UnormSrgb 1 1).create_tile_map_texture
      [single_tile_image] [(⟨0, 0⟩, 0)] = .ok witness_tile_map_image := by rfl
  have h := create_tile_map_dimensions (TileMapTextureCreator.new .rgba8UnormSrgb 1 1)
    [single_tile_image] [(⟨0, 0⟩, 0)] witness_tile_map_image hok
    (by decide) (by decide) (by decide) (by decide)
  exact ⟨hok, h.1.trans (by decide), h.2.trans (by decide)⟩

end BevyTextureUtils
